import Mathlib

/-!
Verification of the upstream-sync reconciliation logic of
`scripts.py` (FriendsOfGalaxy/galaxy-integrations-updater).

The development shallowly embeds the decision logic of `sync` and its
helpers: the `distutils.version.StrictVersion` parser and ordering, the
`FogConfig` dependencies-directory lookup, `_remove_items`, the
pull-request helpers of `FogRepoManager`, and the `sync` control flow
itself.  Effectful steps (git commands, GitHub API calls) are modelled
as an explicit ordered trace of `Action`s together with a small model of
the working tree; every branch condition of `sync` comes from an
environment record `SyncEnv` describing what the external world answers.
-/

namespace FogSync

/-! ## Constants (scripts.py:27-35, 58, 80, 154-155) -/

def FOG_BASE : String := "master"

def FOG_PR_BRANCH : String := "autoupdate"

def RELEASE_FILE : String := "current_version.json"

def PATHS_TO_EXCLUDE : List String := ["README.md", ".github/", RELEASE_FILE]

def ALLOWED_LICENSES : List String := ["mit", "gpl-3.0"]

/-! ## `distutils.version.StrictVersion`

`sync` compares versions with `StrictVersion` (scripts.py:18, 318, 327).
Its grammar is the regex `^(\d+)\.(\d+)(\.(\d+))?([ab](\d+))?$` (ASCII);
a missing patch component defaults to 0, and the optional suffix is a
prerelease tag: a letter 'a' or 'b' followed by a number.  Comparison is
lexicographic on (major, minor, patch), then on the prerelease, where a
prerelease version sorts before the corresponding release and two
prereleases compare as (letter, number) tuples. -/

structure StrictVersion where
  major : Nat
  minor : Nat
  patch : Nat
  prerelease : Option (Char × Nat)
deriving DecidableEq, Repr

def digitsToNat (cs : List Char) : Nat :=
  cs.foldl (fun a c => a * 10 + (c.toNat - 48)) 0

/-- Parse the optional `[ab]\d+` prerelease suffix, requiring end of input. -/
def finishParse (majorN minorN patchN : Nat) : List Char → Option StrictVersion
  | [] => some ⟨majorN, minorN, patchN, none⟩
  | c :: rest =>
    if c = 'a' ∨ c = 'b' then
      let pd := rest.span Char.isDigit
      if pd.1.isEmpty then none
      else if pd.2.isEmpty then some ⟨majorN, minorN, patchN, some (c, digitsToNat pd.1)⟩
      else none
    else none

/-- `StrictVersion.parse`: `None` models the `ValueError` raised on a
string the version regex rejects. -/
def parseStrictVersion (s : String) : Option StrictVersion :=
  let cs := s.toList
  let p1 := cs.span Char.isDigit
  if p1.1.isEmpty then none else
  match p1.2 with
  | '.' :: r2 =>
    let p2 := r2.span Char.isDigit
    if p2.1.isEmpty then none else
    match p2.2 with
    | '.' :: r3 =>
      let p3 := r3.span Char.isDigit
      if p3.1.isEmpty then none
      else finishParse (digitsToNat p1.1) (digitsToNat p2.1) (digitsToNat p3.1) p3.2
    | rest => finishParse (digitsToNat p1.1) (digitsToNat p2.1) 0 rest
  | _ => none

/-- Prerelease comparison from `StrictVersion._cmp`: a prerelease sorts
below the bare version, two prereleases compare as (letter, number). -/
def cmpPre : Option (Char × Nat) → Option (Char × Nat) → Ordering
  | none, none => .eq
  | some _, none => .lt
  | none, some _ => .gt
  | some a, some b => (compare a.1.toNat b.1.toNat).then (compare a.2 b.2)

def StrictVersion.cmp (a b : StrictVersion) : Ordering :=
  (compare a.major b.major).then
    ((compare a.minor b.minor).then
      ((compare a.patch b.patch).then (cmpPre a.prerelease b.prerelease)))

/-- `a <= b` on `StrictVersion`s: `_cmp` result in {-1, 0}. -/
def StrictVersion.le (a b : StrictVersion) : Bool :=
  a.cmp b != Ordering.gt

/-- Python's substring test `needle in hay` (used as `"CONFLICT" in e.output`,
scripts.py:356). -/
def strContains (hay needle : String) : Bool :=
  (List.range (hay.toList.length + 1)).any
    (fun i => List.isPrefixOf needle.toList (hay.toList.drop i))

/-! ## Working-tree model

The claims observe the working tree only through the content of paths
from the merge step onward.  A `Tree` maps a path (reserved directories
such as `.github/` are kept atomic, exactly as they appear in
`PATHS_TO_EXCLUDE`) to its content; a path not in the list is absent. -/

abbrev Tree := List (String × String)

def lookupTree (t : Tree) (p : String) : Option String :=
  (t.find? (fun e => e.1 == p)).map (·.2)

def setTree (t : Tree) (p c : String) : Tree :=
  (p, c) :: t.filter (fun e => !(e.1 == p))

def erasePaths (t : Tree) (ps : List String) : Tree :=
  t.filter (fun e => !(ps.contains e.1))

/-! ## `FogConfig` (scripts.py:57-76)

Only the `dependencies_dir` property is consulted by `sync`; it reads
the `"dependencies_dir"` key of `.fog_config.json` and defaults to `"."`. -/

structure FogConfig where
  dependenciesDirEntry : Option String
deriving DecidableEq, Repr

def FogConfig.dependencies_dir (c : FogConfig) : String :=
  c.dependenciesDirEntry.getD "."

/-! ## Pull requests (scripts.py:207-235)

The fork's open pull requests; `get_pulls(state='open', base=FOG_BASE,
head=FOG_PR_BRANCH)` filters them by base and head branch. -/

structure PullReq where
  title : String
  body : String
  base : String
  head : String
  labels : List String
deriving DecidableEq, Repr

def isAutoupdatePull (p : PullReq) : Bool :=
  p.base == FOG_BASE && p.head == FOG_PR_BRANCH

/-- The open pull requests returned by
`fork.get_pulls(state='open', base=FOG_BASE, head=FOG_PR_BRANCH)`. -/
def autoupdatePulls (pulls : List PullReq) : List PullReq :=
  pulls.filter isAutoupdatePull

/-- `get_autoupdate_pr` (scripts.py:207-212); its
`assert pulls.totalCount <= 1` becomes the hypothesis
`(autoupdatePulls pulls).length ≤ 1` of the theorems below. -/
def get_autoupdate_pr (pulls : List PullReq) : Option PullReq :=
  (autoupdatePulls pulls).head?

/-- The pull request `create_or_update_pr` creates when none is open
(scripts.py:222-229): title "Version {v}", fixed body, base `master`,
head `autoupdate`, then `set_labels('autoupdate')`. -/
def mkAutoupdatePull (version : String) : PullReq :=
  ⟨"Version " ++ version, "Sync with the original repository",
   FOG_BASE, FOG_PR_BRANCH, ["autoupdate"]⟩

/-- `create_or_update_pr` (scripts.py:214-229).  When a PR is open it
edits its title only; under the code's `assert` (at most one match) the
map below edits exactly the pull request `get_autoupdate_pr` returned. -/
def create_or_update_pr (pulls : List PullReq) (version : String) : List PullReq :=
  match get_autoupdate_pr pulls with
  | some _ =>
    pulls.map (fun p =>
      if isAutoupdatePull p then { p with title := "Version " ++ version } else p)
  | none => pulls ++ [mkAutoupdatePull version]

/-! ## `_remove_items` (scripts.py:294-305) -/

/-- What the OS answers when `_remove_items` treats one path:
a plain file (`os.remove` succeeds), a directory (`os.remove` raises
`IsADirectoryError`, `shutil.rmtree` succeeds), a missing path
(`os.remove` raises `FileNotFoundError`, errno `ENOENT`), or some other
`OSError` with the given errno. -/
inductive PathState where
  | file
  | dir
  | absent
  | osError (errno : Nat)
deriving DecidableEq, Repr

inductive RemovalMethod where
  | byOsRemove
  | byRmtree
  | skippedMissing
deriving DecidableEq, Repr

def ENOENT : Nat := 2

/-- One iteration of the `_remove_items` loop: an `OSError` whose errno
is not `ENOENT` is re-raised, a missing file is silently skipped. -/
def removeOne : PathState → Except Nat RemovalMethod
  | .file => .ok .byOsRemove
  | .dir => .ok .byRmtree
  | .absent => .ok .skippedMissing
  | .osError n => if n = ENOENT then .ok .skippedMissing else .error n

/-- `_remove_items(paths)`: each path paired with what the OS answers for
it; the result records how each path was disposed of, or the first
re-raised errno. -/
def _remove_items (paths : List (String × PathState)) :
    Except Nat (List (String × RemovalMethod)) :=
  match paths with
  | [] => .ok []
  | (p, st) :: rest =>
    match removeOne st with
    | .error n => .error n
    | .ok m => (_remove_items rest).map (fun r => (p, m) :: r)

def methodFor : PathState → RemovalMethod
  | .file => .byOsRemove
  | .dir => .byRmtree
  | .absent => .skippedMissing
  | .osError _ => .skippedMissing

/-! ## The `sync` reconciliation (scripts.py:308-390)

`sync` is embedded as a pure function of a `SyncEnv`, which fixes every
answer the external world gives during one run.  The result is the
returned value (or the exception raised), the ordered trace of external
effects attempted, and the final working tree.  -/

/-- External effects performed by `sync`, in source order:
* `configUser` — `git config user.name/user.email` (`LocalRepo._user_setup`);
* `setRemoteUrl`/`addRemote` — `git remote set-url origin …` / `git remote add upstream …` (scripts.py:320-321);
* `checkout b` — `git checkout --track origin/b`;
* `createBranch b` + `pushNewBranch b` — `git checkout -b b` followed by `git push -u origin b` (`LocalRepo._checkout` fallback);
* `removeForkRef r` — `api.remove_fork_ref(r, ignore_fail=True)` (scripts.py:340);
* `fetch` — `git fetch upstream`;
* `removeReserved` — `_remove_items(PATHS_TO_EXCLUDE)` (scripts.py:348);
* `merge u` — the `git merge --no-commit --no-ff -s recursive -Xtheirs` call, `u` true iff `--allow-unrelated-histories` was added (initial sync);
* `checkoutTheirsAll`/`addAll` — the `git checkout --theirs ./*` and `git add .` fallback;
* `restore p` — `git checkout origin/master -- p` (scripts.py:365);
* `resetDeps d` — `git reset d` with `check=False` (scripts.py:373);
* `commit m` — `git commit -m m` (scripts.py:379);
* `push b` — `git push origin b` (scripts.py:384);
* `createPR t`/`setLabels l`/`updatePR t` — `create_or_update_pr`;
* `assignReview` — `api.assign_review()` (scripts.py:388). -/
inductive Action where
  | configUser
  | setRemoteUrl
  | addRemote
  | checkout (branch : String)
  | createBranch (branch : String)
  | pushNewBranch (branch : String)
  | removeForkRef (ref : String)
  | fetch
  | removeReserved
  | merge (allowUnrelated : Bool)
  | checkoutTheirsAll
  | addAll
  | restore (path : String)
  | resetDeps (dir : String)
  | commit (message : String)
  | push (branch : String)
  | createPR (title : String)
  | setLabels (label : String)
  | updatePR (title : String)
  | assignReview
deriving DecidableEq, Repr

/-- The exceptions `sync` can raise in the modelled paths: the two
`ValueError`s of `get_parent_license`, the `ValueError` of a
`StrictVersion` parse (upstream resp. local manifest), and a re-raised
`CalledProcessError` of the merge command. -/
inductive SyncError where
  | licenseNotAllowed
  | upstreamVersionInvalid
  | localVersionInvalid
  | mergeFatal (output : String)
deriving DecidableEq, Repr

inductive MergeOutcome where
  | success
  | failure (output : String)
deriving DecidableEq, Repr

/-- Everything the external world answers during one `sync` run. -/
structure SyncEnv where
  /-- Detected license key of the upstream repository; `none` models the
  `UnknownObjectException` of `parent.get_license()`. -/
  licenseKey : Option String
  /-- `version` field of upstream's manifest. -/
  upstreamVersion : String
  /-- `version` of the fork base branch's manifest; `none` models the
  `FileNotFoundError` (no local manifest). -/
  localManifestVersion : Option String
  /-- Branch checked out when `sync` starts. -/
  currentBranch : String
  /-- Branches with a local `origin/…` remote-tracking ref, consulted by
  `git checkout --track origin/<branch>`. -/
  trackedOriginBranches : List String
  /-- The open autoupdate pull request, if any. -/
  prOpen : Option PullReq
  /-- Whether the merge command exits 0, and its output if not. -/
  mergeOutcome : MergeOutcome
  /-- Working tree after a successful merge. -/
  mergedTree : Tree
  /-- Working tree after the `git checkout --theirs ./*` fallback. -/
  upstreamTree : Tree
  /-- Content of paths on `origin/master` (the fork's base branch). -/
  baseTree : Tree
  /-- Working tree when `sync` starts. -/
  initialTree : Tree
  /-- Upstream's `.fog_config.json`, if present (`get_parent_config`). -/
  parentConfig : Option FogConfig
  /-- Whether `git diff-index --quiet --cached HEAD` exits 1 (staged diff). -/
  stagedDiff : Bool
  /-- Whether `api.assign_review()` raises. -/
  assignReviewFails : Bool
deriving Repr

instance {ε α : Type} [DecidableEq ε] [DecidableEq α] :
    DecidableEq (Except ε α) := fun a b =>
  match a, b with
  | .ok x, .ok y =>
    if h : x = y then .isTrue (by rw [h]) else .isFalse (by simp [h])
  | .error x, .error y =>
    if h : x = y then .isTrue (by rw [h]) else .isFalse (by simp [h])
  | .ok _, .error _ => .isFalse (by simp)
  | .error _, .ok _ => .isFalse (by simp)

structure SyncResult where
  outcome : Except SyncError Bool
  trace : List Action
  tree : Tree
deriving Repr

/-- `get_parent_license` (scripts.py:237-244) succeeds iff a license was
detected and its key is allow-listed; otherwise it raises `ValueError`. -/
def licenseAllowed : Option String → Bool
  | none => false
  | some k => ALLOWED_LICENSES.contains k

/-- Trace of `LocalRepo.__init__` (scripts.py:84-106): git identity
setup, then `_checkout(target)` when the target branch is not already
checked out — tracking it from origin if a remote-tracking ref exists,
else creating it fresh and publishing it. -/
def localRepoTrace (cur tgt : String) (tracked : List String) : List Action :=
  Action.configUser ::
    (if tgt = cur then []
     else if tgt ∈ tracked then [Action.checkout tgt]
     else [Action.createBranch tgt, Action.pushNewBranch tgt])

/-- Restore loop over the reserved paths (scripts.py:362-367): each
`git checkout origin/master -- path` copies the base-branch content into
the working tree when the path exists there, and merely warns when the
pathspec matches nothing on the base branch. -/
def restoreReserved (base : Tree) (ps : List String) (t : Tree) :
    List Action × Tree :=
  match ps with
  | [] => ([], t)
  | p :: rest =>
    match lookupTree base p with
    | some c =>
      let r := restoreReserved base rest (setTree t p c)
      (Action.restore p :: r.1, r.2)
    | none => restoreReserved base rest t

/-- Dependencies-directory step (scripts.py:369-375): `git reset <dir>` is
run only when upstream has a config whose `dependencies_dir` differs from
`'.'`; the command is run with `check=False`, so it has no failure
channel and never touches the working tree. -/
def depsTrace : Option FogConfig → List Action
  | none => []
  | some cfg =>
    if cfg.dependencies_dir ≠ "." then [Action.resetDeps cfg.dependencies_dir]
    else []

/-- `create_or_update_pr` as seen from `sync`'s trace (scripts.py:214-229). -/
def prTrace (pr : Option PullReq) (version : String) : List Action :=
  match pr with
  | some _ => [Action.updatePR ("Version " ++ version)]
  | none => [Action.createPR ("Version " ++ version), Action.setLabels "autoupdate"]

/-- Steps of `sync` after the merge command has left a working tree
(scripts.py:362-390): restore reserved paths from the base branch,
unstage the dependencies directory, and either stop with `False` when
there is no staged diff or commit, push, create/update the pull request
and return `True` — the `return True` sits in a `finally`, so an
exception from `assign_review` is discarded. -/
def afterMerge (env : SyncEnv) (t : Tree) : SyncResult :=
  let restored := restoreReserved env.baseTree PATHS_TO_EXCLUDE t
  let tr0 := restored.1 ++ depsTrace env.parentConfig
  match env.stagedDiff with
  | false => ⟨.ok false, tr0, restored.2⟩
  | true =>
    let tr := tr0 ++ [Action.commit "Merge upstream", Action.push FOG_PR_BRANCH]
      ++ prTrace env.prOpen env.upstreamVersion ++ [Action.assignReview]
    match env.assignReviewFails with
    | true => ⟨.ok true, tr, restored.2⟩
    | false => ⟨.ok true, tr, restored.2⟩

/-- Actions of scripts.py:337-353 once the version gate has passed:
stale-branch cleanup when no PR is open, checkout of the autoupdate
branch, fetch, removal of reserved paths, and the merge command. -/
def proceedPre (env : SyncEnv) (initial : Bool) : List Action :=
  (match env.prOpen with
   | none => [Action.removeForkRef "heads/autoupdate"]
   | some _ => [])
  ++ localRepoTrace FOG_BASE FOG_PR_BRANCH env.trackedOriginBranches
  ++ [Action.fetch, Action.removeReserved, Action.merge initial]

/-- `sync` from the branch preparation onward (scripts.py:337-390).  A
failing merge whose output contains `"CONFLICT"` falls back to taking
upstream's whole tree; any other merge failure re-raises. -/
def proceedSync (env : SyncEnv) (initial : Bool) : SyncResult :=
  let pre := proceedPre env initial
  match env.mergeOutcome with
  | .success =>
    let r := afterMerge env env.mergedTree
    ⟨r.outcome, pre ++ r.trace, r.tree⟩
  | .failure out =>
    if strContains out "CONFLICT" then
      let r := afterMerge env env.upstreamTree
      ⟨r.outcome, pre ++ [Action.checkoutTheirsAll, Action.addAll] ++ r.trace, r.tree⟩
    else
      ⟨.error (.mergeFatal out), pre, erasePaths env.initialTree PATHS_TO_EXCLUDE⟩

/-- Actions performed before the local-version comparison: the two
remote-configuration commands (scripts.py:320-321) and the construction
of `LocalRepo(branch=FOG_BASE)` (scripts.py:325). -/
def setupTrace (env : SyncEnv) : List Action :=
  [Action.setRemoteUrl, Action.addRemote]
    ++ localRepoTrace env.currentBranch FOG_BASE env.trackedOriginBranches

/-- `sync(api)` (scripts.py:308-390).  Straight-line embedding of the
control flow: license gate, upstream-version parse, remote
configuration, base-branch checkout and local-version comparison, then
`proceedSync`. -/
def sync (env : SyncEnv) : SyncResult :=
  match licenseAllowed env.licenseKey with
  | false => ⟨.error .licenseNotAllowed, [], env.initialTree⟩
  | true =>
    match parseStrictVersion env.upstreamVersion with
    | none => ⟨.error .upstreamVersionInvalid, [], env.initialTree⟩
    | some vU =>
      match env.localManifestVersion with
      | none =>
        let r := proceedSync env true
        ⟨r.outcome, setupTrace env ++ r.trace, r.tree⟩
      | some l =>
        match parseStrictVersion l with
        | none => ⟨.error .localVersionInvalid, setupTrace env, env.initialTree⟩
        | some vL =>
          if vU.le vL then ⟨.ok false, setupTrace env, env.initialTree⟩
          else
            let r := proceedSync env false
            ⟨r.outcome, setupTrace env ++ r.trace, r.tree⟩

/-- The version gate of scripts.py:326-335 lets execution continue: the
local manifest is absent, or its version parses and is strictly below
upstream's. -/
def localGate (env : SyncEnv) (vU : StrictVersion) : Bool :=
  match env.localManifestVersion with
  | none => true
  | some l =>
    match parseStrictVersion l with
    | none => false
    | some vL => !(vU.le vL)

/-- The merge step leaves a tree to continue from: either it succeeded or
its output contains `"CONFLICT"` and the fallback ran. -/
def mergeProceeds (env : SyncEnv) : Bool :=
  match env.mergeOutcome with
  | .success => true
  | .failure out => strContains out "CONFLICT"

def initialFlag (env : SyncEnv) : Bool :=
  env.localManifestVersion.isNone

/-- Actions that only configure the local client or navigate to an
existing branch: git identity, remote configuration, and a plain
checkout.  Everything else changes repository content, history, refs, or
hosting-service state. -/
def isSetup : Action → Bool
  | .configUser => true
  | .setRemoteUrl => true
  | .addRemote => true
  | .checkout _ => true
  | _ => false

/-! ## Concrete environments for witnesses and counterexamples -/

/-- A well-behaved run: allowed license, upstream `1.2.0` ahead of local
`1.1.0`, no open PR, clean merge, staged changes. -/
def baseEnv : SyncEnv :=
  { licenseKey := some "mit"
    upstreamVersion := "1.2.0"
    localManifestVersion := some "1.1.0"
    currentBranch := "master"
    trackedOriginBranches := ["master", "autoupdate"]
    prOpen := none
    mergeOutcome := .success
    mergedTree := [("README.md", "up-readme"), ("src/plugin.py", "code-1.2.0")]
    upstreamTree := [("README.md", "up-readme"), ("src/plugin.py", "code-1.2.0")]
    baseTree := [("README.md", "fork-readme"), (".github/", "fork-workflows"),
                 ("current_version.json", "fork-release")]
    initialTree := [("README.md", "fork-readme")]
    parentConfig := none
    stagedDiff := true
    assignReviewFails := false }

/-- Upstream equal to local: the no-op comparison path. -/
def envNoUpdate : SyncEnv :=
  { baseEnv with localManifestVersion := some "1.2.0" }

/-- License key outside the allow-list. -/
def envBadLicense : SyncEnv :=
  { baseEnv with licenseKey := some "apache-2.0" }

/-- Merge fails with a rename/delete conflict recognized by the
`"CONFLICT"` substring test. -/
def envConflict : SyncEnv :=
  { baseEnv with mergeOutcome := .failure "CONFLICT (rename/delete): src/old.py deleted" }

/-- Local manifest present but with an unparsable version string. -/
def envBadLocalVersion : SyncEnv :=
  { baseEnv with localManifestVersion := some "garbage" }

/-- Unparsable upstream version. -/
def envBadUpstreamVersion : SyncEnv :=
  { baseEnv with upstreamVersion := "not-a-version" }

/-- Nothing staged after the merge and restore steps. -/
def envNoDiff : SyncEnv :=
  { baseEnv with stagedDiff := false }

/-- `assign_review` raises after a successful push. -/
def envReviewFails : SyncEnv :=
  { baseEnv with assignReviewFails := true }

/-- Upstream config declaring `dependencies_dir = "vendor"`. -/
def envVendorDeps : SyncEnv :=
  { baseEnv with parentConfig := some ⟨some "vendor"⟩
                 mergedTree := [("README.md", "up-readme"), ("vendor", "vendored-libs")] }

/-- An open autoupdate pull request on the fork. -/
def openAutoupdatePull : PullReq :=
  ⟨"Version 1.1.0", "Sync with the original repository", FOG_BASE, FOG_PR_BRANCH,
   ["autoupdate"]⟩

/-- The working tree the merge step hands to the restore loop. -/
def mergeTreeOf (env : SyncEnv) : Tree :=
  match env.mergeOutcome with
  | .success => env.mergedTree
  | .failure _ => env.upstreamTree

/-! ## Helper lemmas (shared) -/

theorem mem_localRepoTrace {a : Action} {cur tgt : String} {tracked : List String}
    (h : a ∈ localRepoTrace cur tgt tracked) :
    a = .configUser ∨ a = .checkout tgt ∨ a = .createBranch tgt ∨
      a = .pushNewBranch tgt := by
  unfold localRepoTrace at h
  rcases List.mem_cons.mp h with h | h
  · exact Or.inl h
  · split at h
    · simp at h
    · split at h <;> simp at h <;> tauto

theorem localRepoTrace_setup {cur tgt : String} {tracked : List String}
    (ht : tgt ∈ tracked) :
    ∀ a ∈ localRepoTrace cur tgt tracked, isSetup a = true := by
  intro a ha
  by_cases hc : tgt = cur
  · simp [localRepoTrace, hc] at ha
    subst ha; rfl
  · simp [localRepoTrace, hc, ht] at ha
    rcases ha with h | h <;> (subst h; rfl)

theorem mem_setupTrace {a : Action} {env : SyncEnv} (h : a ∈ setupTrace env) :
    a = .setRemoteUrl ∨ a = .addRemote ∨ a = .configUser ∨
      a = .checkout FOG_BASE ∨ a = .createBranch FOG_BASE ∨
      a = .pushNewBranch FOG_BASE := by
  unfold setupTrace at h
  rcases List.mem_append.mp h with h | h
  · simp at h; tauto
  · rcases mem_localRepoTrace h with h | h | h | h <;> tauto

theorem setupTrace_setup {env : SyncEnv}
    (hb : FOG_BASE ∈ env.trackedOriginBranches) :
    ∀ a ∈ setupTrace env, isSetup a = true := by
  intro a ha
  unfold setupTrace at ha
  rcases List.mem_append.mp ha with h | h
  · rcases (by simpa using h : a = .setRemoteUrl ∨ a = .addRemote) with h | h <;>
      (subst h; rfl)
  · exact localRepoTrace_setup hb a h

theorem restoreReserved_trace_mem {base : Tree} {ps : List String} :
    ∀ {t : Tree} {a : Action}, a ∈ (restoreReserved base ps t).1 →
      ∃ p, a = Action.restore p := by
  induction ps with
  | nil => intro t a ha; simp [restoreReserved] at ha
  | cons q rest ih =>
    intro t a ha
    unfold restoreReserved at ha
    cases hq : lookupTree base q with
    | some c =>
      rw [hq] at ha
      rcases List.mem_cons.mp ha with h | h
      · exact ⟨q, h⟩
      · exact ih h
    | none => rw [hq] at ha; exact ih ha

theorem mem_depsTrace {a : Action} {cfg : Option FogConfig}
    (h : a ∈ depsTrace cfg) : ∃ d, a = Action.resetDeps d := by
  cases cfg with
  | none => simp [depsTrace] at h
  | some c =>
    by_cases hd : c.dependencies_dir = "."
    · simp [depsTrace, hd] at h
    · simp [depsTrace, hd] at h
      exact ⟨_, h⟩

theorem resetDeps_mem_depsTrace {d : String} {cfg : Option FogConfig} :
    Action.resetDeps d ∈ depsTrace cfg ↔
      ∃ c, cfg = some c ∧ c.dependencies_dir = d ∧ c.dependencies_dir ≠ "." := by
  cases cfg with
  | none => simp [depsTrace]
  | some c =>
    by_cases hd : c.dependencies_dir = "."
    · simp [depsTrace, hd]
    · simp [depsTrace, hd]
      exact eq_comm

theorem mem_prTrace {a : Action} {pr : Option PullReq} {v : String}
    (h : a ∈ prTrace pr v) :
    a = .updatePR ("Version " ++ v) ∨ a = .createPR ("Version " ++ v) ∨
      a = .setLabels "autoupdate" := by
  unfold prTrace at h
  cases pr <;> simp at h <;> tauto

theorem afterMerge_outcome (env : SyncEnv) (t : Tree) :
    (afterMerge env t).outcome = .ok env.stagedDiff := by
  unfold afterMerge
  cases hsd : env.stagedDiff <;> simp [hsd]
  cases har : env.assignReviewFails <;> simp [har]

theorem afterMerge_tree (env : SyncEnv) (t : Tree) :
    (afterMerge env t).tree = (restoreReserved env.baseTree PATHS_TO_EXCLUDE t).2 := by
  unfold afterMerge
  cases hsd : env.stagedDiff <;> simp [hsd]
  cases har : env.assignReviewFails <;> simp [har]

theorem afterMerge_trace_of_noDiff (env : SyncEnv) (t : Tree)
    (h : env.stagedDiff = false) :
    (afterMerge env t).trace =
      (restoreReserved env.baseTree PATHS_TO_EXCLUDE t).1 ++
        depsTrace env.parentConfig := by
  unfold afterMerge
  simp [h]

theorem afterMerge_trace_of_diff (env : SyncEnv) (t : Tree)
    (h : env.stagedDiff = true) :
    (afterMerge env t).trace =
      (restoreReserved env.baseTree PATHS_TO_EXCLUDE t).1 ++
        depsTrace env.parentConfig ++
        [Action.commit "Merge upstream", Action.push FOG_PR_BRANCH] ++
        prTrace env.prOpen env.upstreamVersion ++ [Action.assignReview] := by
  unfold afterMerge
  cases har : env.assignReviewFails <;> simp [h, har]

theorem mem_afterMerge {a : Action} {env : SyncEnv} {t : Tree}
    (h : a ∈ (afterMerge env t).trace) :
    (∃ p, a = .restore p) ∨ (∃ d, a = .resetDeps d) ∨ (∃ m, a = .commit m) ∨
      (∃ b, a = .push b) ∨ (∃ s, a = .createPR s) ∨ (∃ s, a = .setLabels s) ∨
      (∃ s, a = .updatePR s) ∨ a = .assignReview := by
  cases hsd : env.stagedDiff with
  | false =>
    rw [afterMerge_trace_of_noDiff env t hsd] at h
    rcases List.mem_append.mp h with h | h
    · exact Or.inl (restoreReserved_trace_mem h)
    · exact Or.inr (Or.inl (mem_depsTrace h))
  | true =>
    rw [afterMerge_trace_of_diff env t hsd] at h
    rcases List.mem_append.mp h with h | h
    · rcases List.mem_append.mp h with h | h
      · rcases List.mem_append.mp h with h | h
        · rcases List.mem_append.mp h with h | h
          · exact Or.inl (restoreReserved_trace_mem h)
          · exact Or.inr (Or.inl (mem_depsTrace h))
        · rcases (by simpa using h :
            a = Action.commit "Merge upstream" ∨ a = Action.push FOG_PR_BRANCH) with h | h
          · exact Or.inr (Or.inr (Or.inl ⟨_, h⟩))
          · exact Or.inr (Or.inr (Or.inr (Or.inl ⟨_, h⟩)))
      · rcases mem_prTrace h with h | h | h
        · exact Or.inr (Or.inr (Or.inr (Or.inr (Or.inr (Or.inr (Or.inl ⟨_, h⟩))))))
        · exact Or.inr (Or.inr (Or.inr (Or.inr (Or.inl ⟨_, h⟩))))
        · exact Or.inr (Or.inr (Or.inr (Or.inr (Or.inr (Or.inl ⟨_, h⟩)))))
    · exact Or.inr (Or.inr (Or.inr (Or.inr (Or.inr (Or.inr (Or.inr (by simpa using h)))))))

theorem mem_proceedPre {a : Action} {env : SyncEnv} {i : Bool}
    (h : a ∈ proceedPre env i) :
    a = .removeForkRef "heads/autoupdate" ∨ a = .configUser ∨
      a = .checkout FOG_PR_BRANCH ∨ a = .createBranch FOG_PR_BRANCH ∨
      a = .pushNewBranch FOG_PR_BRANCH ∨ a = .fetch ∨ a = .removeReserved ∨
      a = .merge i := by
  unfold proceedPre at h
  rcases List.mem_append.mp h with h | h
  · rcases List.mem_append.mp h with h | h
    · cases hpr : env.prOpen <;> rw [hpr] at h <;> simp at h; tauto
    · rcases mem_localRepoTrace h with h | h | h | h <;> tauto
  · simp at h; tauto

theorem proceedPre_removeForkRef {env : SyncEnv} {i : Bool} {r : String}
    (h : Action.removeForkRef r ∈ proceedPre env i) : env.prOpen = none := by
  cases hpr : env.prOpen with
  | none => rfl
  | some pr =>
    exfalso
    unfold proceedPre at h
    rw [hpr] at h
    rcases List.mem_append.mp h with h | h
    · rcases List.mem_append.mp h with h | h
      · simp at h
      · rcases mem_localRepoTrace h with h | h | h | h <;> cases h
    · simp at h

theorem proceedSync_trace_decomp (env : SyncEnv) (i : Bool) :
    ∃ rest, (proceedSync env i).trace = proceedPre env i ++ rest ∧
      ∀ a ∈ rest, a = Action.checkoutTheirsAll ∨ a = Action.addAll ∨
        a ∈ (afterMerge env (mergeTreeOf env)).trace := by
  cases hm : env.mergeOutcome with
  | success =>
    refine ⟨(afterMerge env env.mergedTree).trace, by simp [proceedSync, hm], ?_⟩
    intro a ha
    exact Or.inr (Or.inr (by simpa [mergeTreeOf, hm] using ha))
  | failure out =>
    by_cases hc : strContains out "CONFLICT" = true
    · refine ⟨[Action.checkoutTheirsAll, Action.addAll] ++
        (afterMerge env env.upstreamTree).trace, by simp [proceedSync, hm, hc], ?_⟩
      intro a ha
      rcases List.mem_append.mp ha with h | h
      · rcases (by simpa using h :
          a = Action.checkoutTheirsAll ∨ a = Action.addAll) with h | h <;> tauto
      · exact Or.inr (Or.inr (by simpa [mergeTreeOf, hm] using h))
    · exact ⟨[], by simp [proceedSync, hm, hc], by simp⟩

theorem proceedSync_outcome (env : SyncEnv) (i : Bool)
    (h : mergeProceeds env = true) :
    (proceedSync env i).outcome = .ok env.stagedDiff := by
  cases hm : env.mergeOutcome with
  | success => simp [proceedSync, hm, afterMerge_outcome]
  | failure out =>
    have hc : strContains out "CONFLICT" = true := by
      simpa [mergeProceeds, hm] using h
    simp [proceedSync, hm, hc, afterMerge_outcome]

theorem proceedSync_tree (env : SyncEnv) (i : Bool)
    (h : mergeProceeds env = true) :
    (proceedSync env i).tree =
      (restoreReserved env.baseTree PATHS_TO_EXCLUDE (mergeTreeOf env)).2 := by
  cases hm : env.mergeOutcome with
  | success => simp [proceedSync, hm, afterMerge_tree, mergeTreeOf]
  | failure out =>
    have hc : strContains out "CONFLICT" = true := by
      simpa [mergeProceeds, hm] using h
    simp [proceedSync, hm, hc, afterMerge_tree, mergeTreeOf]

theorem sync_eq_proceed (env : SyncEnv) (vU : StrictVersion)
    (h1 : licenseAllowed env.licenseKey = true)
    (h2 : parseStrictVersion env.upstreamVersion = some vU)
    (h3 : localGate env vU = true) :
    sync env = ⟨(proceedSync env (initialFlag env)).outcome,
                setupTrace env ++ (proceedSync env (initialFlag env)).trace,
                (proceedSync env (initialFlag env)).tree⟩ := by
  have h3' := h3
  cases hl : env.localManifestVersion with
  | none => simp [sync, h1, h2, hl, initialFlag]
  | some l =>
    cases hp : parseStrictVersion l with
    | none => simp [localGate, hl, hp] at h3'
    | some vL =>
      have hle : vU.le vL = false := by simpa [localGate, hl, hp] using h3'
      simp [sync, h1, h2, hl, hp, hle, initialFlag]

theorem filter_map_congr {α : Type} (f : α → α) (q : α → Bool)
    (hf : ∀ a, q (f a) = q a) :
    ∀ l : List α, (l.map f).filter q = (l.filter q).map f := by
  intro l
  induction l with
  | nil => rfl
  | cons a l ih =>
    cases hq : q a with
    | true => simp [List.filter_cons, hf a, hq, ih]
    | false => simp [List.filter_cons, hf a, hq, ih]

/-- The title edit of `create_or_update_pr` keeps a pull request's
base, head, body and labels. -/
theorem isAutoupdatePull_title_edit (v : String) (p : PullReq) :
    isAutoupdatePull (if isAutoupdatePull p then
      { p with title := "Version " ++ v } else p) = isAutoupdatePull p := by
  by_cases h : isAutoupdatePull p = true
  · rw [if_pos h]
    rfl
  · rw [if_neg h]

theorem afterMerge_noDiff_mem {a : Action} {env : SyncEnv} {t : Tree}
    (hsd : env.stagedDiff = false) (h : a ∈ (afterMerge env t).trace) :
    (∃ p, a = Action.restore p) ∨ (∃ d, a = Action.resetDeps d) := by
  rw [afterMerge_trace_of_noDiff env t hsd] at h
  rcases List.mem_append.mp h with h | h
  · exact Or.inl (restoreReserved_trace_mem h)
  · exact Or.inr (mem_depsTrace h)

theorem proceedSync_removeForkRef {env : SyncEnv} {i : Bool} {r : String}
    (h : Action.removeForkRef r ∈ (proceedSync env i).trace) :
    env.prOpen = none := by
  obtain ⟨rest, hr, hrest⟩ := proceedSync_trace_decomp env i
  rw [hr] at h
  rcases List.mem_append.mp h with h | h
  · exact proceedPre_removeForkRef h
  · rcases hrest _ h with h | h | h
    · simp at h
    · simp at h
    · rcases mem_afterMerge h with ⟨p, hp⟩ | ⟨d, hp⟩ | ⟨m, hp⟩ | ⟨b, hp⟩ |
        ⟨s, hp⟩ | ⟨s, hp⟩ | ⟨s, hp⟩ | hp <;> simp at hp

theorem setupTrace_no_removeForkRef {env : SyncEnv} {r : String}
    (h : Action.removeForkRef r ∈ setupTrace env) : False := by
  rcases mem_setupTrace h with h | h | h | h | h | h <;> simp at h

/-- A stale-branch deletion appears in `sync`'s trace only when no
autoupdate pull request is open (scripts.py:337-340). -/
theorem sync_trace_removeForkRef {env : SyncEnv} {r : String}
    (h : Action.removeForkRef r ∈ (sync env).trace) : env.prOpen = none := by
  cases hLic : licenseAllowed env.licenseKey with
  | false => simp [sync, hLic] at h
  | true =>
    cases hU : parseStrictVersion env.upstreamVersion with
    | none => simp [sync, hLic, hU] at h
    | some vU =>
      cases hl : env.localManifestVersion with
      | none =>
        simp only [sync, hLic, hU, hl] at h
        rcases List.mem_append.mp h with h | h
        · exact absurd h (fun hh => setupTrace_no_removeForkRef hh)
        · exact proceedSync_removeForkRef h
      | some l =>
        cases hp : parseStrictVersion l with
        | none =>
          simp only [sync, hLic, hU, hl, hp] at h
          exact absurd h (fun hh => setupTrace_no_removeForkRef hh)
        | some vL =>
          cases hle : vU.le vL with
          | true =>
            simp only [sync, hLic, hU, hl, hp, hle, if_true] at h
            exact absurd h (fun hh => setupTrace_no_removeForkRef hh)
          | false =>
            simp only [sync, hLic, hU, hl, hp, hle, Bool.false_eq_true,
              if_false] at h
            rcases List.mem_append.mp h with h | h
            · exact absurd h (fun hh => setupTrace_no_removeForkRef hh)
            · exact proceedSync_removeForkRef h

theorem sync_trace_decomp (env : SyncEnv) (vU : StrictVersion)
    (h1 : licenseAllowed env.licenseKey = true)
    (h2 : parseStrictVersion env.upstreamVersion = some vU)
    (h3 : localGate env vU = true) :
    ∃ rest, (sync env).trace =
        setupTrace env ++ proceedPre env (initialFlag env) ++ rest ∧
      ∀ a ∈ rest, a = Action.checkoutTheirsAll ∨ a = Action.addAll ∨
        a ∈ (afterMerge env (mergeTreeOf env)).trace := by
  obtain ⟨rest, hr, hmem⟩ := proceedSync_trace_decomp env (initialFlag env)
  refine ⟨rest, ?_, hmem⟩
  rw [sync_eq_proceed env vU h1 h2 h3]
  show setupTrace env ++ (proceedSync env (initialFlag env)).trace = _
  rw [hr, List.append_assoc]

theorem afterMerge_mem_sync {a : Action} (env : SyncEnv) (vU : StrictVersion)
    (h1 : licenseAllowed env.licenseKey = true)
    (h2 : parseStrictVersion env.upstreamVersion = some vU)
    (h3 : localGate env vU = true)
    (h4 : mergeProceeds env = true)
    (ha : a ∈ (afterMerge env (mergeTreeOf env)).trace) :
    a ∈ (sync env).trace := by
  have hmem : a ∈ (proceedSync env (initialFlag env)).trace := by
    cases hm : env.mergeOutcome with
    | success =>
      simp only [mergeTreeOf, hm] at ha
      simp [proceedSync, hm, ha]
    | failure out =>
      have hc : strContains out "CONFLICT" = true := by
        simpa [mergeProceeds, hm] using h4
      simp only [mergeTreeOf, hm] at ha
      simp [proceedSync, hm, hc, ha]
  rw [sync_eq_proceed env vU h1 h2 h3]
  exact List.mem_append.mpr (Or.inr hmem)

theorem resetDeps_mem_afterMerge {env : SyncEnv} {t : Tree} {d : String} :
    Action.resetDeps d ∈ (afterMerge env t).trace ↔
      Action.resetDeps d ∈ depsTrace env.parentConfig := by
  constructor
  · intro h
    cases hsd : env.stagedDiff with
    | false =>
      rw [afterMerge_trace_of_noDiff env t hsd] at h
      rcases List.mem_append.mp h with h | h
      · obtain ⟨p, hp⟩ := restoreReserved_trace_mem h; simp at hp
      · exact h
    | true =>
      rw [afterMerge_trace_of_diff env t hsd] at h
      rcases List.mem_append.mp h with h | h
      · rcases List.mem_append.mp h with h | h
        · rcases List.mem_append.mp h with h | h
          · rcases List.mem_append.mp h with h | h
            · obtain ⟨p, hp⟩ := restoreReserved_trace_mem h; simp at hp
            · exact h
          · simp at h
        · rcases mem_prTrace h with h | h | h <;> simp at h
      · simp at h
  · intro h
    cases hsd : env.stagedDiff with
    | false =>
      rw [afterMerge_trace_of_noDiff env t hsd]
      exact List.mem_append.mpr (Or.inr h)
    | true =>
      rw [afterMerge_trace_of_diff env t hsd]
      refine List.mem_append.mpr (Or.inl ?_)
      refine List.mem_append.mpr (Or.inl ?_)
      refine List.mem_append.mpr (Or.inl ?_)
      exact List.mem_append.mpr (Or.inr h)

theorem map_stripTitle_edit (v : String) (l : List PullReq) :
    (l.map (fun p => if isAutoupdatePull p then
        { p with title := "Version " ++ v } else p)).map
      (fun p => { p with title := "" }) =
    l.map (fun p => { p with title := "" }) := by
  induction l with
  | nil => rfl
  | cons p l ih =>
    by_cases hp : isAutoupdatePull p = true
    · simp [hp, ih]
    · simp [hp, ih]

/-! ## Claim theorems -/

/-- Claim C3: if the upstream repository's detected license key is not in
the allow-list {mit, gpl-3.0}, or no license can be detected at all, the
whole sync operation fails with a configuration error (`ValueError` from
`get_parent_license`, modelled as `SyncError.licenseNotAllowed`) before
any mutation occurs: the trace is empty, so in particular no push, no
commit, no branch change and no remote-configuration change happened. -/
theorem license_failure_pre_mutation (env : SyncEnv)
    (h : licenseAllowed env.licenseKey = false) :
    (sync env).outcome = .error .licenseNotAllowed ∧ (sync env).trace = [] := by
  constructor <;> simp [sync, h]

theorem license_failure_pre_mutation_witness :
    licenseAllowed envBadLicense.licenseKey = false ∧
      ((sync envBadLicense).outcome = .error .licenseNotAllowed ∧
        (sync envBadLicense).trace = []) :=
  ⟨by decide, license_failure_pre_mutation envBadLicense (by decide)⟩

/-- Claim C10: for every list of paths, `_remove_items` removes each path
that exists (a file via `os.remove`, a directory tree via
`shutil.rmtree`), raises no error for a path that does not exist, and
re-raises the first `OSError` whose errno is not `ENOENT`. -/
theorem remove_items_spec :
    (∀ paths : List (String × PathState),
      (∀ p n, (p, PathState.osError n) ∈ paths → n = ENOENT) →
      _remove_items paths = .ok (paths.map (fun x => (x.1, methodFor x.2))))
    ∧ (∀ (front : List (String × PathState)) (p : String) (n : Nat)
        (back : List (String × PathState)), n ≠ ENOENT →
        (∀ q m, (q, PathState.osError m) ∈ front → m = ENOENT) →
        _remove_items (front ++ (p, PathState.osError n) :: back) = .error n) := by
  constructor
  · intro paths h
    induction paths with
    | nil => rfl
    | cons e rest ih =>
      obtain ⟨q, st⟩ := e
      have hrest : ∀ p n, (p, PathState.osError n) ∈ rest → n = ENOENT :=
        fun p n hm => h p n (List.mem_cons_of_mem _ hm)
      cases st with
      | file => simp [_remove_items, removeOne, methodFor, Except.map, ih hrest]
      | dir => simp [_remove_items, removeOne, methodFor, Except.map, ih hrest]
      | absent => simp [_remove_items, removeOne, methodFor, Except.map, ih hrest]
      | osError n =>
        have hn : n = ENOENT := h q n (List.mem_cons_self _ _)
        subst hn
        simp [_remove_items, removeOne, methodFor, Except.map, ih hrest]
  · intro front p n back hn hfront
    induction front with
    | nil => simp [_remove_items, removeOne, hn]
    | cons e rest ih =>
      obtain ⟨q, st⟩ := e
      have hrest : ∀ q' m, (q', PathState.osError m) ∈ rest → m = ENOENT :=
        fun q' m hm => hfront q' m (List.mem_cons_of_mem _ hm)
      cases st with
      | file => simp [_remove_items, removeOne, Except.map, ih hrest]
      | dir => simp [_remove_items, removeOne, Except.map, ih hrest]
      | absent => simp [_remove_items, removeOne, Except.map, ih hrest]
      | osError m =>
        have hm : m = ENOENT := hfront q m (List.mem_cons_self _ _)
        subst hm
        simp [_remove_items, removeOne, Except.map, ih hrest]

theorem remove_items_spec_witness :
    (∀ p n, (p, PathState.osError n) ∈
        [("README.md", PathState.file), (".github/", PathState.dir),
         ("current_version.json", PathState.absent)] → n = ENOENT) ∧
      _remove_items
        [("README.md", PathState.file), (".github/", PathState.dir),
         ("current_version.json", PathState.absent)] =
      .ok [("README.md", RemovalMethod.byOsRemove),
           (".github/", RemovalMethod.byRmtree),
           ("current_version.json", RemovalMethod.skippedMissing)] :=
  ⟨fun p n hm => by simp at hm,
   remove_items_spec.1 _ (fun p n hm => by simp at hm)⟩

/-- Claim C8: a failure of the review-request call after a successful
sync never invalidates the sync: `sync` still returns `True` even when
`assign_review` raises, because the `return True` sits in the `finally`
block. -/
theorem review_failure_does_not_invalidate_sync (env : SyncEnv)
    (vU : StrictVersion)
    (h1 : licenseAllowed env.licenseKey = true)
    (h2 : parseStrictVersion env.upstreamVersion = some vU)
    (h3 : localGate env vU = true)
    (h4 : mergeProceeds env = true)
    (h5 : env.stagedDiff = true)
    (_h6 : env.assignReviewFails = true) :
    (sync env).outcome = .ok true := by
  rw [sync_eq_proceed env vU h1 h2 h3]
  show (proceedSync env (initialFlag env)).outcome = .ok true
  rw [proceedSync_outcome env _ h4, h5]

theorem review_failure_does_not_invalidate_sync_witness :
    (licenseAllowed envReviewFails.licenseKey = true ∧
     parseStrictVersion envReviewFails.upstreamVersion = some ⟨1, 2, 0, none⟩ ∧
     localGate envReviewFails ⟨1, 2, 0, none⟩ = true ∧
     mergeProceeds envReviewFails = true ∧
     envReviewFails.stagedDiff = true ∧
     envReviewFails.assignReviewFails = true) ∧
      (sync envReviewFails).outcome = .ok true :=
  ⟨⟨by decide, by decide, by decide, by decide, by decide, by decide⟩,
   review_failure_does_not_invalidate_sync envReviewFails ⟨1, 2, 0, none⟩
     (by decide) (by decide) (by decide) (by decide) (by decide) (by decide)⟩

/-- Claim C4: when the merge command fails, `sync` falls back to
accepting upstream's tree wholesale (`git checkout --theirs ./*` and
`git add .`) exactly when the merge error output contains `"CONFLICT"`
(the recognized rename/delete-conflict case), and then continues to a
normal return; every merge failure not matching that case aborts the run
by re-raising the error, with no fallback. -/
theorem merge_failure_fallback_iff_conflict (env : SyncEnv)
    (vU : StrictVersion) (out : String)
    (h1 : licenseAllowed env.licenseKey = true)
    (h2 : parseStrictVersion env.upstreamVersion = some vU)
    (h3 : localGate env vU = true)
    (hm : env.mergeOutcome = .failure out) :
    (strContains out "CONFLICT" = true →
      Action.checkoutTheirsAll ∈ (sync env).trace ∧
      Action.addAll ∈ (sync env).trace ∧
      ∃ b, (sync env).outcome = Except.ok b)
    ∧ (strContains out "CONFLICT" = false →
      (sync env).outcome = .error (.mergeFatal out) ∧
      Action.checkoutTheirsAll ∉ (sync env).trace) := by
  rw [sync_eq_proceed env vU h1 h2 h3]
  constructor
  · intro hc
    refine ⟨?_, ?_, env.stagedDiff, ?_⟩
    · show Action.checkoutTheirsAll ∈
        setupTrace env ++ (proceedSync env (initialFlag env)).trace
      simp [proceedSync, hm, hc]
    · show Action.addAll ∈
        setupTrace env ++ (proceedSync env (initialFlag env)).trace
      simp [proceedSync, hm, hc]
    · show (proceedSync env (initialFlag env)).outcome = Except.ok env.stagedDiff
      exact proceedSync_outcome env _ (by simp [mergeProceeds, hm, hc])
  · intro hc
    constructor
    · show (proceedSync env (initialFlag env)).outcome = .error (.mergeFatal out)
      simp [proceedSync, hm, hc]
    · show Action.checkoutTheirsAll ∉
        setupTrace env ++ (proceedSync env (initialFlag env)).trace
      intro hmem
      rcases List.mem_append.mp hmem with h | h
      · rcases mem_setupTrace h with h | h | h | h | h | h <;> simp at h
      · rw [show (proceedSync env (initialFlag env)).trace =
            proceedPre env (initialFlag env) from by simp [proceedSync, hm, hc]] at h
        rcases mem_proceedPre h with h | h | h | h | h | h | h | h <;> simp at h

theorem merge_failure_fallback_iff_conflict_witness :
    (licenseAllowed envConflict.licenseKey = true ∧
     parseStrictVersion envConflict.upstreamVersion = some ⟨1, 2, 0, none⟩ ∧
     localGate envConflict ⟨1, 2, 0, none⟩ = true ∧
     envConflict.mergeOutcome =
       .failure "CONFLICT (rename/delete): src/old.py deleted" ∧
     strContains "CONFLICT (rename/delete): src/old.py deleted" "CONFLICT" = true) ∧
      (Action.checkoutTheirsAll ∈ (sync envConflict).trace ∧
       Action.addAll ∈ (sync envConflict).trace ∧
       ∃ b, (sync envConflict).outcome = Except.ok b) :=
  ⟨⟨by decide, by decide, by decide, by decide, by decide⟩,
   (merge_failure_fallback_iff_conflict envConflict ⟨1, 2, 0, none⟩
      "CONFLICT (rename/delete): src/old.py deleted"
      (by decide) (by decide) (by decide) (by decide)).1 (by decide)⟩

/-- Claim C7: if, after the merge, reserved-path restore and
dependencies-directory unstaging, there is no staged diff versus the
current branch tip, `sync` stops as a no-op and returns `False` without
committing, pushing the working branch, or creating/updating a pull
request; conversely, when a staged diff exists it commits with the fixed
message "Merge upstream" and pushes the `autoupdate` branch. -/
theorem staged_diff_gates_commit_and_push (env : SyncEnv) (vU : StrictVersion)
    (h1 : licenseAllowed env.licenseKey = true)
    (h2 : parseStrictVersion env.upstreamVersion = some vU)
    (h3 : localGate env vU = true)
    (h4 : mergeProceeds env = true) :
    (env.stagedDiff = false →
      (sync env).outcome = .ok false ∧
      (∀ m, Action.commit m ∉ (sync env).trace) ∧
      (∀ b, Action.push b ∉ (sync env).trace) ∧
      (∀ s, Action.createPR s ∉ (sync env).trace) ∧
      (∀ s, Action.updatePR s ∉ (sync env).trace))
    ∧ (env.stagedDiff = true →
      Action.commit "Merge upstream" ∈ (sync env).trace ∧
      Action.push FOG_PR_BRANCH ∈ (sync env).trace) := by
  obtain ⟨rest, hr, hrest⟩ := sync_trace_decomp env vU h1 h2 h3
  constructor
  · intro hsd
    have houtcome : (sync env).outcome = .ok false := by
      rw [sync_eq_proceed env vU h1 h2 h3]
      show (proceedSync env (initialFlag env)).outcome = .ok false
      rw [proceedSync_outcome env _ h4, hsd]
    have hnot : ∀ a ∈ (sync env).trace,
        (∀ m, a ≠ Action.commit m) ∧ (∀ b, a ≠ Action.push b) ∧
        (∀ s, a ≠ Action.createPR s) ∧ (∀ s, a ≠ Action.updatePR s) := by
      intro a ha
      rw [hr] at ha
      rcases List.mem_append.mp ha with h | h
      · rcases List.mem_append.mp h with h | h
        · rcases mem_setupTrace h with h | h | h | h | h | h <;>
            (subst h; exact ⟨fun m => by simp, fun b => by simp,
              fun s => by simp, fun s => by simp⟩)
        · rcases mem_proceedPre h with h | h | h | h | h | h | h | h <;>
            (subst h; exact ⟨fun m => by simp, fun b => by simp,
              fun s => by simp, fun s => by simp⟩)
      · rcases hrest _ h with h | h | h
        · subst h; exact ⟨fun m => by simp, fun b => by simp,
            fun s => by simp, fun s => by simp⟩
        · subst h; exact ⟨fun m => by simp, fun b => by simp,
            fun s => by simp, fun s => by simp⟩
        · rcases afterMerge_noDiff_mem hsd h with ⟨p, hp⟩ | ⟨d, hp⟩ <;>
            (subst hp; exact ⟨fun m => by simp, fun b => by simp,
              fun s => by simp, fun s => by simp⟩)
    refine ⟨houtcome, ?_, ?_, ?_, ?_⟩
    · intro m hmem; exact (hnot _ hmem).1 m rfl
    · intro b hmem; exact (hnot _ hmem).2.1 b rfl
    · intro s hmem; exact (hnot _ hmem).2.2.1 s rfl
    · intro s hmem; exact (hnot _ hmem).2.2.2 s rfl
  · intro hsd
    constructor
    · refine afterMerge_mem_sync env vU h1 h2 h3 h4 ?_
      rw [afterMerge_trace_of_diff env _ hsd]
      simp
    · refine afterMerge_mem_sync env vU h1 h2 h3 h4 ?_
      rw [afterMerge_trace_of_diff env _ hsd]
      simp

theorem staged_diff_gates_commit_and_push_witness :
    (licenseAllowed envNoDiff.licenseKey = true ∧
     parseStrictVersion envNoDiff.upstreamVersion = some ⟨1, 2, 0, none⟩ ∧
     localGate envNoDiff ⟨1, 2, 0, none⟩ = true ∧
     mergeProceeds envNoDiff = true ∧
     envNoDiff.stagedDiff = false) ∧
      ((sync envNoDiff).outcome = .ok false ∧
       Action.commit "Merge upstream" ∉ (sync envNoDiff).trace ∧
       Action.push FOG_PR_BRANCH ∉ (sync envNoDiff).trace) :=
  ⟨⟨by decide, by decide, by decide, by decide, by decide⟩,
   let h := (staged_diff_gates_commit_and_push envNoDiff ⟨1, 2, 0, none⟩
     (by decide) (by decide) (by decide) (by decide)).1 (by decide)
   ⟨h.1, h.2.1 "Merge upstream", h.2.2.1 FOG_PR_BRANCH⟩⟩

/-- Claim C9: when the upstream config declares a `dependencies_dir`
override different from the default `"."`, `sync` unstages that directory
(`git reset <dir>` appears in the trace exactly then) while leaving it on
disk (the final working tree does not depend on the config), and the
unstaging step is non-fatal (it cannot change the outcome, which stays a
normal return); when no override is declared or it equals `"."`, no
unstaging happens. -/
theorem dependencies_dir_unstaged_iff_override (env : SyncEnv)
    (vU : StrictVersion)
    (h1 : licenseAllowed env.licenseKey = true)
    (h2 : parseStrictVersion env.upstreamVersion = some vU)
    (h3 : localGate env vU = true)
    (h4 : mergeProceeds env = true) :
    (∀ d, Action.resetDeps d ∈ (sync env).trace ↔
      ∃ cfg, env.parentConfig = some cfg ∧ cfg.dependencies_dir = d ∧ d ≠ ".")
    ∧ (∀ cfg, (sync {env with parentConfig := cfg}).tree = (sync env).tree)
    ∧ (sync env).outcome = .ok env.stagedDiff := by
  obtain ⟨rest, hr, hrest⟩ := sync_trace_decomp env vU h1 h2 h3
  refine ⟨?_, ?_, ?_⟩
  · intro d
    constructor
    · intro hmem
      rw [hr] at hmem
      have hdeps : Action.resetDeps d ∈ depsTrace env.parentConfig := by
        rcases List.mem_append.mp hmem with h | h
        · rcases List.mem_append.mp h with h | h
          · exact absurd (mem_setupTrace h) (by rintro (h | h | h | h | h | h) <;> simp at h)
          · exact absurd (mem_proceedPre h) (by rintro (h | h | h | h | h | h | h | h) <;> simp at h)
        · rcases hrest _ h with h | h | h
          · simp at h
          · simp at h
          · exact resetDeps_mem_afterMerge.mp h
      obtain ⟨c, hc, hcd, hne⟩ := resetDeps_mem_depsTrace.mp hdeps
      exact ⟨c, hc, hcd, hcd ▸ hne⟩
    · rintro ⟨cfg, hc, hcd, hne⟩
      refine afterMerge_mem_sync env vU h1 h2 h3 h4 ?_
      refine resetDeps_mem_afterMerge.mpr ?_
      exact resetDeps_mem_depsTrace.mpr ⟨cfg, hc, hcd, hcd ▸ hne⟩
  · intro cfg
    rw [sync_eq_proceed {env with parentConfig := cfg} vU h1 h2 h3,
        sync_eq_proceed env vU h1 h2 h3]
    show (proceedSync {env with parentConfig := cfg} _).tree =
      (proceedSync env _).tree
    rw [proceedSync_tree {env with parentConfig := cfg} _ h4,
        proceedSync_tree env _ h4]
    rfl
  · rw [sync_eq_proceed env vU h1 h2 h3]
    exact proceedSync_outcome env _ h4

theorem dependencies_dir_unstaged_iff_override_witness :
    (licenseAllowed envVendorDeps.licenseKey = true ∧
     parseStrictVersion envVendorDeps.upstreamVersion = some ⟨1, 2, 0, none⟩ ∧
     localGate envVendorDeps ⟨1, 2, 0, none⟩ = true ∧
     mergeProceeds envVendorDeps = true ∧
     envVendorDeps.parentConfig = some ⟨some "vendor"⟩) ∧
      (Action.resetDeps "vendor" ∈ (sync envVendorDeps).trace ∧
       (sync envVendorDeps).outcome = .ok true) :=
  ⟨⟨by decide, by decide, by decide, by decide, by decide⟩,
   let h := dependencies_dir_unstaged_iff_override envVendorDeps ⟨1, 2, 0, none⟩
     (by decide) (by decide) (by decide) (by decide)
   ⟨(h.1 "vendor").mpr ⟨⟨some "vendor"⟩, rfl, rfl, by decide⟩, h.2.2⟩⟩

/-- Claim C2: at most one open autoupdate pull request (base = `master`,
head = `autoupdate`) exists on the fork at any observation point: under
the code's own assertion (at most one match before), `create_or_update_pr`
creates a new pull request — title "Version {v}", fixed body, label
`autoupdate` — exactly when `get_autoupdate_pr` finds none open, and
otherwise only edits the existing pull request's title, preserving the
at-most-one invariant; and `sync` deletes the stale autoupdate branch ref
only when no such pull request is open. -/
theorem autoupdate_pr_invariant (pulls : List PullReq) (v : String)
    (h : (autoupdatePulls pulls).length ≤ 1) :
    (autoupdatePulls (create_or_update_pr pulls v)).length ≤ 1
    ∧ (get_autoupdate_pr pulls = none →
        create_or_update_pr pulls v = pulls ++ [mkAutoupdatePull v])
    ∧ (∀ pr, get_autoupdate_pr pulls = some pr →
        (create_or_update_pr pulls v).map (fun p => { p with title := "" }) =
          pulls.map (fun p => { p with title := "" }) ∧
        get_autoupdate_pr (create_or_update_pr pulls v) =
          some { pr with title := "Version " ++ v })
    ∧ (∀ env : SyncEnv,
        Action.removeForkRef "heads/autoupdate" ∈ (sync env).trace →
        env.prOpen = none) := by
  refine ⟨?_, ?_, ?_, fun env hm => sync_trace_removeForkRef hm⟩
  · cases hg : get_autoupdate_pr pulls with
    | none =>
      have hnil : autoupdatePulls pulls = [] := by
        unfold get_autoupdate_pr at hg
        exact List.head?_eq_none_iff.mp hg
      have : autoupdatePulls (create_or_update_pr pulls v) =
          [mkAutoupdatePull v] := by
        simp only [create_or_update_pr, hg]
        unfold autoupdatePulls at hnil ⊢
        rw [List.filter_append, hnil]
        rfl
      rw [this]
      simp
    | some pr =>
      have hmap : autoupdatePulls (create_or_update_pr pulls v) =
          (autoupdatePulls pulls).map (fun p =>
            if isAutoupdatePull p then { p with title := "Version " ++ v } else p) := by
        simp only [create_or_update_pr, hg]
        exact filter_map_congr _ _ (isAutoupdatePull_title_edit v) pulls
      rw [hmap, List.length_map]
      exact h
  · intro hg
    simp [create_or_update_pr, hg]
  · intro pr hg
    have hlist : autoupdatePulls pulls = [pr] := by
      unfold get_autoupdate_pr at hg
      cases hl : autoupdatePulls pulls with
      | nil => rw [hl] at hg; cases hg
      | cons x t =>
        rw [hl] at hg
        have hx : x = pr := by simpa using hg
        subst hx
        have : t = [] := by
          rw [hl] at h
          cases t with
          | nil => rfl
          | cons y t' => simp at h
        rw [this]
    have hpr : isAutoupdatePull pr = true := by
      have : pr ∈ autoupdatePulls pulls := by rw [hlist]; exact List.mem_singleton.mpr rfl
      exact (List.mem_filter.mp this).2
    constructor
    · simp only [create_or_update_pr, hg]
      exact map_stripTitle_edit v pulls
    · simp only [create_or_update_pr, hg]
      unfold get_autoupdate_pr
      rw [show autoupdatePulls (pulls.map (fun p =>
          if isAutoupdatePull p then { p with title := "Version " ++ v } else p)) =
        (autoupdatePulls pulls).map (fun p =>
          if isAutoupdatePull p then { p with title := "Version " ++ v } else p) from
        filter_map_congr _ _ (isAutoupdatePull_title_edit v) pulls]
      rw [hlist]
      simp [hpr]

theorem autoupdate_pr_invariant_witness :
    (autoupdatePulls [openAutoupdatePull]).length ≤ 1 ∧
      get_autoupdate_pr (create_or_update_pr [openAutoupdatePull] "1.2.0") =
        some { openAutoupdatePull with title := "Version 1.2.0" } :=
  ⟨by decide,
   ((autoupdate_pr_invariant [openAutoupdatePull] "1.2.0" (by decide)).2.2.1
      openAutoupdatePull (by decide)).2⟩

/-- Claim C1 counterexample: a run with upstream version equal to the
local version returns the no-update result, yet its trace is not empty —
it has already changed the remote configuration (`git remote set-url`,
`git remote add`, scripts.py:320-321) and the git identity before the
version comparison, so the no-op case does not perform "no mutation". -/
theorem noop_sync_changes_remote_config :
    (sync envNoUpdate).outcome = .ok false ∧
      (sync envNoUpdate).trace =
        [Action.setRemoteUrl, Action.addRemote, Action.configUser] := by
  constructor <;> decide

/-- Claim C1 (amended): for every upstream version `U` and every present
local version `L`, `sync` returns the no-update result having performed
only client setup (git identity configuration, the two
remote-configuration commands, and a checkout of the existing base
branch) — in particular no branch mutation, merge, commit, push or
pull-request change — if and only if `U <= L` under `StrictVersion`
ordering, provided the fork's base branch has an origin tracking ref;
when the local version is absent, `sync` always proceeds past the
version comparison into the merge as an initial sync (the merge is run
with `--allow-unrelated-histories`). -/
theorem sync_noop_iff_upstream_le_local (env : SyncEnv) (vU : StrictVersion)
    (h1 : licenseAllowed env.licenseKey = true)
    (h2 : parseStrictVersion env.upstreamVersion = some vU)
    (hb : FOG_BASE ∈ env.trackedOriginBranches) :
    (∀ l vL, env.localManifestVersion = some l → parseStrictVersion l = some vL →
      (((sync env).outcome = .ok false ∧
        ∀ a ∈ (sync env).trace, isSetup a = true) ↔ vU.le vL = true))
    ∧ (env.localManifestVersion = none →
        Action.merge true ∈ (sync env).trace) := by
  constructor
  · intro l vL hl hp
    constructor
    · rintro ⟨hok, hall⟩
      by_contra hle
      have hlef : vU.le vL = false := by
        cases hv : vU.le vL
        · rfl
        · exact absurd hv hle
      have h3 : localGate env vU = true := by simp [localGate, hl, hp, hlef]
      have hfetch : Action.fetch ∈ (sync env).trace := by
        obtain ⟨rest, hr, _⟩ := sync_trace_decomp env vU h1 h2 h3
        rw [hr]
        refine List.mem_append.mpr (Or.inl ?_)
        refine List.mem_append.mpr (Or.inr ?_)
        simp [proceedPre]
      have := hall _ hfetch
      simp [isSetup] at this
    · intro hle
      have hsync : sync env = ⟨.ok false, setupTrace env, env.initialTree⟩ := by
        simp [sync, h1, h2, hl, hp, hle]
      rw [hsync]
      exact ⟨rfl, setupTrace_setup hb⟩
  · intro hl
    have h3 : localGate env vU = true := by simp [localGate, hl]
    obtain ⟨rest, hr, _⟩ := sync_trace_decomp env vU h1 h2 h3
    rw [hr]
    refine List.mem_append.mpr (Or.inl ?_)
    refine List.mem_append.mpr (Or.inr ?_)
    have hi : initialFlag env = true := by simp [initialFlag, hl]
    rw [hi]
    simp [proceedPre]

theorem sync_noop_iff_upstream_le_local_witness :
    (licenseAllowed envNoUpdate.licenseKey = true ∧
     parseStrictVersion envNoUpdate.upstreamVersion = some ⟨1, 2, 0, none⟩ ∧
     FOG_BASE ∈ envNoUpdate.trackedOriginBranches ∧
     envNoUpdate.localManifestVersion = some "1.2.0" ∧
     parseStrictVersion "1.2.0" = some ⟨1, 2, 0, none⟩) ∧
      (((sync envNoUpdate).outcome = .ok false ∧
        ∀ a ∈ (sync envNoUpdate).trace, isSetup a = true) ↔
        StrictVersion.le ⟨1, 2, 0, none⟩ ⟨1, 2, 0, none⟩ = true) :=
  ⟨⟨by decide, by decide, by decide, by decide, by decide⟩,
   (sync_noop_iff_upstream_le_local envNoUpdate ⟨1, 2, 0, none⟩
      (by decide) (by decide) (by decide)).1 "1.2.0" ⟨1, 2, 0, none⟩
      (by decide) (by decide)⟩

/-- Claim C6 counterexample: with a valid upstream version and a
malformed local manifest version, `sync` does fail with the version-parse
error, but only after state changes have occurred: the trace already
holds the remote-configuration commands (`git remote set-url`,
`git remote add`) and the git identity setup, so the failure is not
"before any state changes". -/
theorem local_version_error_after_setup_actions :
    (sync envBadLocalVersion).outcome = .error .localVersionInvalid ∧
      (sync envBadLocalVersion).trace =
        [Action.setRemoteUrl, Action.addRemote, Action.configUser] := by
  constructor <;> decide

/-- Claim C6 (amended): given an invalid or unparsable semantic version
string, `sync` fails with a version-parse error before any push or
commit occurs, and a malformed version string is never silently compared
as equal to or less than another version; for upstream's manifest the
failure happens before any action at all (empty trace), while for the
fork's local manifest the failure is detected only after the
remote-configuration commands, git identity setup and base-branch
checkout — but still before any branch mutation, merge, commit, push or
pull-request change (given the fork's base branch has an origin tracking
ref, only client-setup actions precede the error). -/
theorem version_parse_error_before_push_or_commit :
    (∀ env : SyncEnv, licenseAllowed env.licenseKey = true →
      parseStrictVersion env.upstreamVersion = none →
      (sync env).outcome = .error .upstreamVersionInvalid ∧
        (sync env).trace = [])
    ∧ (∀ (env : SyncEnv) (l : String),
      licenseAllowed env.licenseKey = true →
      (parseStrictVersion env.upstreamVersion).isSome = true →
      env.localManifestVersion = some l →
      parseStrictVersion l = none →
      FOG_BASE ∈ env.trackedOriginBranches →
      (sync env).outcome = .error .localVersionInvalid ∧
        ∀ a ∈ (sync env).trace, isSetup a = true) := by
  constructor
  · intro env hLic hU
    constructor <;> simp [sync, hLic, hU]
  · intro env l hLic hU hl hp hb
    obtain ⟨vU, hvU⟩ := Option.isSome_iff_exists.mp hU
    have hsync : sync env =
        ⟨.error .localVersionInvalid, setupTrace env, env.initialTree⟩ := by
      simp [sync, hLic, hvU, hl, hp]
    rw [hsync]
    exact ⟨rfl, setupTrace_setup hb⟩

theorem version_parse_error_before_push_or_commit_witness :
    (licenseAllowed envBadUpstreamVersion.licenseKey = true ∧
     parseStrictVersion envBadUpstreamVersion.upstreamVersion = none) ∧
      ((sync envBadUpstreamVersion).outcome = .error .upstreamVersionInvalid ∧
       (sync envBadUpstreamVersion).trace = []) :=
  ⟨⟨by decide, by decide⟩,
   version_parse_error_before_push_or_commit.1 envBadUpstreamVersion
     (by decide) (by decide)⟩

end FogSync

